import Mathlib

/-!
Verification of the data-cleaning core of `scripts/laptop_analysis.py`.

The script manipulates pandas DataFrames.  We embed a DataFrame as a
`Table`: a list of column headers together with row-oriented data.  Cell
values are strings, numbers (ℚ, standing for Python floats on the finite
decimal values the script manipulates) or the missing value NaN (`vnull`).
Elementwise pandas operations are embedded as `Value → Value` functions
following pandas object-dtype semantics: `.str` accessors turn non-string
elements into missing values instead of raising.
-/

/-- A cell of a DataFrame: a string, a number, or a missing value (NaN). -/
inductive Value where
  | vstr (s : String)
  | vnum (q : ℚ)
  | vnull
deriving DecidableEq, Repr

/-- A DataFrame: named columns over row-oriented data. -/
structure Table where
  headers : List String
  rows : List (List Value)
deriving DecidableEq, Repr

/-- A table is well formed when every row has one cell per header. -/
def Table.WF (t : Table) : Prop :=
  ∀ r ∈ t.rows, r.length = t.headers.length

instance (t : Table) : Decidable t.WF :=
  inferInstanceAs (Decidable (∀ r ∈ t.rows, r.length = t.headers.length))

/-- Index of the first column with the given name, if any. -/
def colIdx (n : String) : List String → Option Nat
  | [] => none
  | h :: hs => if h = n then some 0 else (colIdx n hs).map (· + 1)

/-- `df[n]` as a read: the named column's cells, row by row. -/
def Table.getCol (t : Table) (n : String) : Option (List Value) :=
  (colIdx n t.headers).map fun i => t.rows.map fun r => r.getD i .vnull

/-- The named column's cells, with `[]` when the column is absent. -/
def colVals (t : Table) (n : String) : List Value :=
  (t.getCol n).getD []

/-- `df[n] = series`: overwrite the named column, or append a new one. -/
def Table.setCol (t : Table) (n : String) (vs : List Value) : Table :=
  match colIdx n t.headers with
  | some i => ⟨t.headers, List.zipWith (fun r v => r.set i v) t.rows vs⟩
  | none => ⟨t.headers ++ [n], List.zipWith (fun r v => r ++ [v]) t.rows vs⟩

/-- `df[n]` as a required read: pandas raises `KeyError` when absent. -/
inductive CleanError where
  | keyError
  | parseError
deriving DecidableEq, Repr

def requireCol (t : Table) (n : String) : Except CleanError (List Value) :=
  match t.getCol n with
  | some vs => .ok vs
  | none => .error .keyError

/-- `.str.replace('₹','').str.replace(',','')` (line 59-62): both patterns
are single characters replaced by the empty string, i.e. every occurrence
of the character is removed. -/
def stripPrice (s : String) : String :=
  String.mk ((s.data.filter fun c => c != '₹').filter fun c => c != ',')

/-- Numeric value of a list of decimal digit characters. -/
def digitsVal (l : List Char) : Nat :=
  l.foldl (fun a c => 10 * a + (c.toNat - 48)) 0

/-- Python `float()` on an unsigned finite decimal literal: a digit run,
optionally followed by `.` and a (possibly empty) digit run. -/
def parseUnsigned (l : List Char) : Option ℚ :=
  let ip := l.takeWhile Char.isDigit
  match l.dropWhile Char.isDigit with
  | [] => if ip.isEmpty then none else some ((digitsVal ip : ℚ))
  | c :: fr =>
    if c = '.' then
      if fr.isEmpty then
        if ip.isEmpty then none else some ((digitsVal ip : ℚ))
      else if fr.all Char.isDigit then
        some ((digitsVal ip : ℚ) + (digitsVal fr : ℚ) / (10 : ℚ) ^ fr.length)
      else none
    else none

/-- Python `float()` on a finite decimal literal with optional sign. -/
def parseFloat (s : String) : Option ℚ :=
  match s.data with
  | [] => none
  | c :: l =>
    if c = '+' then parseUnsigned l
    else if c = '-' then (parseUnsigned l).map Neg.neg
    else parseUnsigned (c :: l)

/-- One cell of `.str.replace('₹','').str.replace(',','').astype(float)`:
a string is stripped and parsed (`ValueError` when not numeric); a
non-string becomes NaN under object-dtype `.str` and stays NaN through
`astype(float)`. -/
def cleanPriceVal : Value → Except CleanError Value
  | .vstr s =>
    match parseFloat (stripPrice s) with
    | some q => .ok (.vnum q)
    | none => .error .parseError
  | _ => .ok .vnull

/-- Whether a cell makes the price conversion raise: exactly the string
cells whose stripped remainder is not numeric. -/
def priceFails : Value → Bool
  | .vstr s => (parseFloat (stripPrice s)).isNone
  | _ => false

/-- Total version of `cleanPriceVal`, meaningful on non-failing cells. -/
def cleanPriceT : Value → Value
  | .vstr s =>
    match parseFloat (stripPrice s) with
    | some q => .vnum q
    | none => .vnull
  | _ => .vnull

/-- First maximal run of decimal digits in a character list, if any
(the regex search `(\d+)` of line 68). -/
def firstDigitRun : List Char → Option (List Char)
  | [] => none
  | c :: cs =>
    if c.isDigit then some (c :: cs.takeWhile Char.isDigit)
    else firstDigitRun cs

/-- One cell of `.str.extract('(\d+)').astype(float)` (line 68): the first
digit run parsed as a number, NaN when there is none or the cell is not a
string. -/
def extractNum : Value → Value
  | .vstr s =>
    match firstDigitRun s.data with
    | some ds => .vnum (digitsVal ds)
    | none => .vnull
  | _ => .vnull

/-- Column-name normalization (lines 71-75): lower-case, then replace
spaces by underscores. -/
def normName (s : String) : String :=
  String.mk ((s.data.map Char.toLower).map fun c => if c = ' ' then '_' else c)

def normalizeHeaders (t : Table) : Table :=
  ⟨t.headers.map normName, t.rows⟩

/-- One cell of `.fillna(0)` (line 78). -/
def fillZero : Value → Value
  | .vnull => .vnum 0
  | v => v

/-- First maximal non-whitespace run after skipping leading whitespace:
Python `s.split()[0]` when it exists (`.str.split().str[0]`, line 81,
which yields NaN when the string has no tokens). -/
def firstTokenL : List Char → Option (List Char)
  | [] => none
  | c :: cs =>
    if c.isWhitespace then firstTokenL cs
    else some (c :: cs.takeWhile fun d => !d.isWhitespace)

/-- One cell of `.str.split().str[0]` (line 81). -/
def splitFirst : Value → Value
  | .vstr s =>
    match firstTokenL s.data with
    | some tk => .vstr (String.mk tk)
    | none => .vnull
  | _ => .vnull

/-- The brand canonicalization table of lines 82-87. -/
def brand_mapping : List (String × String) :=
  [("Apple", "Apple"), ("HP", "HP"), ("Lenovo", "Lenovo"),
   ("Dell", "Dell"), ("Asus", "Asus"), ("Acer", "Acer"),
   ("MSI", "MSI"), ("Samsung", "Samsung"), ("Xiaomi", "Xiaomi"),
   ("Honor", "Honor"), ("Huawei", "Huawei")]

def brandReplace (s : String) : String :=
  ((brand_mapping.find? fun p => p.1 = s).map Prod.snd).getD s

/-- One cell of `.replace(brand_mapping)` (line 88): non-strings (NaN)
pass through unchanged. -/
def replaceBrand : Value → Value
  | .vstr s => .vstr (brandReplace s)
  | v => v

/-- Brand of a model cell: first whitespace token, canonicalized. -/
def deriveBrand (v : Value) : Value :=
  replaceBrand (splitFirst v)

/-- `clean_data` (lines 45-91).  The source copies the frame (line 56) and
performs named-column reads and writes in this order: clean `Price`
(raising on a non-numeric remainder), extract digits from `Ram` and `SSD`,
normalize all column names, default missing `rating` to 0, then derive
`brand` from `model`.  Reads of absent columns raise `KeyError`. -/
def clean_data (df : Table) : Except CleanError Table := do
  let t0 := df
  let pv ← requireCol t0 "Price"
  let pv2 ← pv.mapM cleanPriceVal
  let t1 := t0.setCol "Price" pv2
  let rv ← requireCol t1 "Ram"
  let t2 := t1.setCol "Ram" (rv.map extractNum)
  let sv ← requireCol t2 "SSD"
  let t3 := t2.setCol "SSD" (sv.map extractNum)
  let t4 := normalizeHeaders t3
  let gv ← requireCol t4 "rating"
  let t5 := t4.setCol "rating" (gv.map fillZero)
  let mv ← requireCol t5 "model"
  let t6 := t5.setCol "brand" (mv.map splitFirst)
  let t7 := t6.setCol "brand" ((colVals t6 "brand").map replaceBrand)
  return t7

/-- `load_data` (lines 27-43): the CSV reader (the external `pd.read_csv`,
taken as a parameter) either yields a frame or fails; the wrapper catches
every failure, returning the frame with a success log line, or no frame
with a diagnostic naming the path and the error. -/
def load_data (readCsv : String → Except String Table) (path : String) :
    Option Table × String :=
  match readCsv path with
  | .ok df =>
    (some df, "✅ Dataset cargado correctamente. Filas: " ++ toString df.rows.length)
  | .error e =>
    (none, "❌ Error al cargar " ++ path ++ ": " ++ e)

/-- Does `pat` occur as a contiguous sublist at the head of the text? -/
def startsWithL : List Char → List Char → Bool
  | [], _ => true
  | _ :: _, [] => false
  | c :: cs, d :: ds => c = d && startsWithL cs ds

/-- Does `pat` occur as a contiguous sublist anywhere in the text? -/
def containsSub (pat : List Char) : List Char → Bool
  | [] => startsWithL pat []
  | c :: cs => startsWithL pat (c :: cs) || containsSub pat cs

/-- One cell of `.str.contains(pat, case=False)` (lines 186, 188) used as
a `.loc` row mask: case-insensitive substring test on string cells;
non-string cells do not match. -/
def strContainsCI (v : Value) (pat : String) : Bool :=
  match v with
  | .vstr s => containsSub (pat.data.map Char.toLower) (s.data.map Char.toLower)
  | _ => false

/-- The regex alternation `'Ultrabook|Thin|Slim'` of line 188. -/
def ultraMatch (v : Value) : Bool :=
  strContainsCI v "Ultrabook" || strContainsCI v "Thin" || strContainsCI v "Slim"

/-- The four category statements of `analyze_categories` (lines 185-188)
for one row.  Each `.loc` mask is computed from the `model` and `brand`
columns, which those statements never modify, so the successive
whole-column masked assignments act on each row as this overwrite chain. -/
def rowCategory (model brand : Value) : String :=
  let c := "General"
  let c := if strContainsCI model "Gaming" then "Gaming" else c
  let c := if brand = Value.vstr "Apple" then "Apple" else c
  let c := if ultraMatch model then "Ultrabook" else c
  c

/-- The effect of lines 185-188 on the frame: the `category` column is
assigned row by row from `model` and `brand`. -/
def assignCategories (t : Table) : Table :=
  t.setCol "category"
    (List.zipWith (fun m b => Value.vstr (rowCategory m b))
      (colVals t "model") (colVals t "brand"))

/-- State of the caller's frame after `clean_data(df)` returns: line 56
copies the frame and every later write in `clean_data` targets the copy,
so the argument is left exactly as it was. -/
def clean_data_effect (df : Table) : Table := df

/-- State of the caller's frame after `analyze_categories(df)` returns:
lines 185-188 write the `category` column into the frame that was passed
in (the function returns `None`, not a new frame). -/
def analyze_categories_effect (df : Table) : Table :=
  assignCategories df

deriving instance DecidableEq for Except

/-- A CSV reader stub for exercising `load_data`: one known path. -/
def demoReadCsv : String → Except String Table :=
  fun p =>
    if p = "laptop.csv" then .ok ⟨["Price"], [[Value.vstr "₹1"]]⟩
    else .error "No such file or directory"

/-- A raw listing row whose `Rating` cell is absent. -/
def ratingNullT : Table :=
  ⟨["Price", "Ram", "SSD", "Rating", "Model"],
   [[Value.vstr "₹54,999", Value.vstr "8 GB", Value.vstr "256 GB SSD",
     Value.vnull, Value.vstr "HP Pavilion Gaming 15"]]⟩

/-- The same raw listing row with an explicit `Rating` of zero. -/
def ratingZeroT : Table :=
  ⟨["Price", "Ram", "SSD", "Rating", "Model"],
   [[Value.vstr "₹54,999", Value.vstr "8 GB", Value.vstr "256 GB SSD",
     Value.vnum 0, Value.vstr "HP Pavilion Gaming 15"]]⟩

/-- The cleaned table both of the two rows above produce. -/
def ratingCleanT : Table :=
  ⟨["price", "ram", "ssd", "rating", "model", "brand"],
   [[Value.vnum 54999, Value.vnum 8, Value.vnum 256, Value.vnum 0,
     Value.vstr "HP Pavilion Gaming 15", Value.vstr "HP"]]⟩

/-- A raw listing row whose `SSD` string has no digits and whose rating
is absent. -/
def c2DemoT : Table :=
  ⟨["Price", "Ram", "SSD", "Rating", "Model"],
   [[Value.vstr "₹54,999", Value.vstr "8 GB", Value.vstr "No SSD",
     Value.vnull, Value.vstr "HP Pavilion Gaming 15"]]⟩

/-- A raw listing row with a clean model string. -/
def c8DemoT : Table :=
  ⟨["Price", "Ram", "SSD", "Rating", "Model"],
   [[Value.vstr "₹99,900", Value.vstr "16 GB", Value.vstr "512 GB",
     Value.vnum 46, Value.vstr "Apple MacBook Air"]]⟩

/-! ### Basic lemmas about the embedding's building blocks -/

theorem la_ok_bind {ε α β : Type} (a : α) (f : α → Except ε β) :
    (Except.ok a : Except ε α) >>= f = f a := rfl

theorem la_err_bind {ε α β : Type} (e : ε) (f : α → Except ε β) :
    (Except.error e : Except ε α) >>= f = .error e := rfl

theorem la_pure_eq {ε α : Type} (a : α) :
    (pure a : Except ε α) = .ok a := rfl

theorem la_colIdx_lt_length {n : String} :
    ∀ {hs : List String} {i : Nat}, colIdx n hs = some i → i < hs.length := by
  intro hs
  induction hs with
  | nil => intro i h; simp [colIdx] at h
  | cons a tl ih =>
    intro i h
    by_cases ha : a = n
    · simp only [colIdx, if_pos ha, Option.some.injEq] at h
      subst h
      simp
    · simp [colIdx, ha] at h
      obtain ⟨j, hj, rfl⟩ := h
      have := ih hj
      simp
      omega

theorem la_colIdx_getD {n : String} :
    ∀ {hs : List String} {i : Nat}, colIdx n hs = some i → hs.getD i "" = n := by
  intro hs
  induction hs with
  | nil => intro i h; simp [colIdx] at h
  | cons a tl ih =>
    intro i h
    by_cases ha : a = n
    · simp [colIdx, ha] at h
      subst h
      simpa using ha
    · simp [colIdx, ha] at h
      obtain ⟨j, hj, rfl⟩ := h
      simpa using ih hj

theorem la_colIdx_isSome_iff {n : String} :
    ∀ {hs : List String}, (colIdx n hs).isSome ↔ n ∈ hs := by
  intro hs
  induction hs with
  | nil => simp [colIdx]
  | cons a tl ih =>
    by_cases ha : a = n
    · simp [colIdx, ha]
    · simp [colIdx, ha, Option.isSome_map, ih]
      exact fun h => absurd h.symm ha

theorem la_colIdx_append {n : String} {hs : List String} {i : Nat}
    (h : colIdx n hs = some i) (l : List String) :
    colIdx n (hs ++ l) = some i := by
  induction hs generalizing i with
  | nil => simp [colIdx] at h
  | cons a tl ih =>
    by_cases ha : a = n
    · simp [colIdx, ha] at h ⊢
      exact h
    · simp [colIdx, ha] at h ⊢
      obtain ⟨j, hj, rfl⟩ := h
      exact ⟨j, ih hj, rfl⟩

theorem la_colIdx_append_single {n m : String} {hs : List String}
    (h : colIdx n hs = none) :
    colIdx n (hs ++ [m]) = if m = n then some hs.length else none := by
  induction hs with
  | nil => simp [colIdx]
  | cons a tl ih =>
    by_cases ha : a = n
    · simp [colIdx, ha] at h
    · simp [colIdx, ha] at h ⊢
      rw [ih h]
      by_cases hm : m = n <;> simp [hm]

theorem la_colIdx_ne {n m : String} {hs : List String} {i j : Nat}
    (hn : colIdx n hs = some i) (hm : colIdx m hs = some j) (hnm : n ≠ m) :
    i ≠ j := by
  intro hij
  apply hnm
  rw [← la_colIdx_getD hn, ← la_colIdx_getD hm, hij]

theorem la_map_inj_of_nodup {α β : Type} {f : α → β} {hs : List α}
    (hnd : (hs.map f).Nodup) :
    ∀ {h₁ h₂ : α}, h₁ ∈ hs → h₂ ∈ hs → f h₁ = f h₂ → h₁ = h₂ :=
  fun m₁ m₂ hf => List.inj_on_of_nodup_map hnd m₁ m₂ hf

theorem la_colIdx_map_of_nodup {f : String → String} {hs : List String}
    (hnd : (hs.map f).Nodup) {h : String} (hm : h ∈ hs) :
    colIdx (f h) (hs.map f) = colIdx h hs := by
  induction hs with
  | nil => simp at hm
  | cons a tl ih =>
    simp only [List.map_cons, List.nodup_cons] at hnd
    rcases List.mem_cons.mp hm with rfl | hm
    · simp [colIdx]
    · have hfa : f a ≠ f h := by
        intro he
        exact hnd.1 (he ▸ List.mem_map_of_mem f hm)
      have ha : a ≠ h := fun he => hfa (he ▸ rfl)
      simp [colIdx, hfa, ha, ih hnd.2 hm]

theorem la_getD_set_self {l : List Value} {i : Nat} (h : i < l.length)
    (a d : Value) : (l.set i a).getD i d = a := by
  induction l generalizing i with
  | nil => simp at h
  | cons b tl ih =>
    cases i with
    | zero => simp
    | succ j =>
      simp only [List.set, List.getD_cons_succ]
      exact ih (by simpa using h) 

theorem la_getD_set_ne {l : List Value} {i j : Nat} (h : i ≠ j)
    (a d : Value) : (l.set i a).getD j d = l.getD j d := by
  induction l generalizing i j with
  | nil => simp
  | cons b tl ih =>
    cases i with
    | zero =>
      cases j with
      | zero => exact absurd rfl h
      | succ k => simp
    | succ i' =>
      cases j with
      | zero => simp
      | succ k => simpa using ih (by omega)

theorem la_getD_append_len {l : List Value} {L : Nat} (h : l.length = L)
    (a d : Value) : (l ++ [a]).getD L d = a := by
  induction l generalizing L with
  | nil => simp at h; subst h; simp
  | cons b tl ih =>
    cases L with
    | zero => simp at h
    | succ L' => simpa using ih (by simpa using h)

theorem la_getD_append_lt {l l₂ : List Value} {j : Nat} (h : j < l.length)
    (d : Value) : (l ++ l₂).getD j d = l.getD j d := by
  induction l generalizing j with
  | nil => simp at h
  | cons b tl ih =>
    cases j with
    | zero => simp
    | succ k => simpa using ih (by simpa using h)

theorem la_map_zipWith_set_self {rs : List (List Value)} {vs : List Value}
    {i : Nat} (hlen : vs.length = rs.length)
    (hr : ∀ r ∈ rs, i < r.length) :
    (List.zipWith (fun r v => r.set i v) rs vs).map (fun r => r.getD i .vnull)
      = vs := by
  induction rs generalizing vs with
  | nil => cases vs <;> simp_all
  | cons r tl ih =>
    cases vs with
    | nil => simp at hlen
    | cons v vtl =>
      simp only [List.zipWith_cons_cons, List.map_cons]
      rw [la_getD_set_self (hr r (by simp)) v .vnull,
        ih (by simpa using hlen) (fun r' h' => hr r' (by simp [h']))]

theorem la_map_zipWith_set_ne {rs : List (List Value)} {vs : List Value}
    {i j : Nat} (hlen : vs.length = rs.length) (h : i ≠ j) :
    (List.zipWith (fun r v => r.set i v) rs vs).map (fun r => r.getD j .vnull)
      = rs.map (fun r => r.getD j .vnull) := by
  induction rs generalizing vs with
  | nil => simp
  | cons r tl ih =>
    cases vs with
    | nil => simp at hlen
    | cons v vtl =>
      simp only [List.zipWith_cons_cons, List.map_cons]
      rw [la_getD_set_ne h v .vnull, ih (by simpa using hlen)]

theorem la_map_zipWith_append_self {rs : List (List Value)} {vs : List Value}
    {L : Nat} (hlen : vs.length = rs.length)
    (hr : ∀ r ∈ rs, r.length = L) :
    (List.zipWith (fun r v => r ++ [v]) rs vs).map (fun r => r.getD L .vnull)
      = vs := by
  induction rs generalizing vs with
  | nil => cases vs <;> simp_all
  | cons r tl ih =>
    cases vs with
    | nil => simp at hlen
    | cons v vtl =>
      simp only [List.zipWith_cons_cons, List.map_cons]
      rw [la_getD_append_len (hr r (by simp)) v .vnull,
        ih (by simpa using hlen) (fun r' h' => hr r' (by simp [h']))]

theorem la_map_zipWith_append_lt {rs : List (List Value)} {vs : List Value}
    {L j : Nat} (hlen : vs.length = rs.length)
    (hr : ∀ r ∈ rs, r.length = L) (hj : j < L) :
    (List.zipWith (fun r v => r ++ [v]) rs vs).map (fun r => r.getD j .vnull)
      = rs.map (fun r => r.getD j .vnull) := by
  induction rs generalizing vs with
  | nil => simp
  | cons r tl ih =>
    cases vs with
    | nil => simp at hlen
    | cons v vtl =>
      simp only [List.zipWith_cons_cons, List.map_cons]
      rw [la_getD_append_lt (by rw [hr r (by simp)]; exact hj) .vnull,
        ih (by simpa using hlen) (fun r' h' => hr r' (by simp [h']))]

theorem la_mem_zipWith {α β γ : Type} {f : α → β → γ} {c : γ} :
    ∀ {as : List α} {bs : List β}, c ∈ List.zipWith f as bs →
      ∃ a b, a ∈ as ∧ b ∈ bs ∧ c = f a b := by
  intro as
  induction as with
  | nil => intro bs h; simp at h
  | cons a tl ih =>
    intro bs h
    cases bs with
    | nil => simp at h
    | cons b btl =>
      simp only [List.zipWith_cons_cons, List.mem_cons] at h
      rcases h with rfl | h
      · exact ⟨a, b, by simp, by simp, rfl⟩
      · obtain ⟨a', b', ha, hb, rfl⟩ := ih h
        exact ⟨a', b', by simp [ha], by simp [hb], rfl⟩

theorem la_getCol_of_mem {t : Table} {n : String} (h : n ∈ t.headers) :
    t.getCol n = some (colVals t n) := by
  have hs := la_colIdx_isSome_iff.mpr h
  obtain ⟨i, hi⟩ := Option.isSome_iff_exists.mp hs
  simp [colVals, Table.getCol, hi]

theorem la_getCol_length {t : Table} {n : String} {vs : List Value}
    (h : t.getCol n = some vs) : vs.length = t.rows.length := by
  simp only [Table.getCol, Option.map_eq_some'] at h
  obtain ⟨i, _, rfl⟩ := h
  simp

theorem la_colVals_length {t : Table} {n : String} (h : n ∈ t.headers) :
    (colVals t n).length = t.rows.length :=
  la_getCol_length (la_getCol_of_mem h)

theorem la_setCol_headers_of_mem {t : Table} {n : String} (h : n ∈ t.headers)
    (vs : List Value) : (t.setCol n vs).headers = t.headers := by
  have hs := la_colIdx_isSome_iff.mpr h
  obtain ⟨i, hi⟩ := Option.isSome_iff_exists.mp hs
  simp [Table.setCol, hi]

theorem la_mem_headers_setCol {t : Table} {m n : String} (h : m ∈ t.headers)
    (vs : List Value) : m ∈ (t.setCol n vs).headers := by
  unfold Table.setCol
  cases hc : colIdx n t.headers with
  | some i => simpa using h
  | none => simp [h]

theorem la_setCol_rows_length {t : Table} {n : String} {vs : List Value}
    (hlen : vs.length = t.rows.length) :
    (t.setCol n vs).rows.length = t.rows.length := by
  unfold Table.setCol
  cases hc : colIdx n t.headers <;> simp [hlen]

theorem la_WF_setCol {t : Table} {n : String} {vs : List Value}
    (hWF : t.WF) : (t.setCol n vs).WF := by
  unfold Table.setCol
  cases hc : colIdx n t.headers with
  | some i =>
    intro r hr
    obtain ⟨r', v, hr', _, rfl⟩ := la_mem_zipWith hr
    simpa using hWF r' hr'
  | none =>
    intro r hr
    obtain ⟨r', v, hr', _, rfl⟩ := la_mem_zipWith hr
    simpa using hWF r' hr'

theorem la_getCol_setCol_self {t : Table} {n : String} {vs : List Value}
    (hWF : t.WF) (hlen : vs.length = t.rows.length) :
    (t.setCol n vs).getCol n = some vs := by
  unfold Table.setCol
  cases hc : colIdx n t.headers with
  | some i =>
    simp only [Table.getCol, hc, Option.map_some']
    rw [la_map_zipWith_set_self hlen
      (fun r hr => by rw [hWF r hr]; exact la_colIdx_lt_length hc)]
  | none =>
    have hidx : colIdx n (t.headers ++ [n]) = some t.headers.length := by
      rw [la_colIdx_append_single hc]
      simp
    simp only [Table.getCol, hidx, Option.map_some']
    rw [la_map_zipWith_append_self hlen (fun r hr => hWF r hr)]

theorem la_getCol_setCol_ne {t : Table} {m n : String} {vs : List Value}
    (hWF : t.WF) (hlen : vs.length = t.rows.length) (hmn : m ≠ n) :
    (t.setCol n vs).getCol m = t.getCol m := by
  unfold Table.setCol
  cases hc : colIdx n t.headers with
  | some i =>
    simp only [Table.getCol]
    cases hm : colIdx m t.headers with
    | none => simp
    | some j =>
      simp only [Option.map_some']
      rw [la_map_zipWith_set_ne hlen
        (la_colIdx_ne hc hm (fun he => hmn he.symm))]
  | none =>
    simp only [Table.getCol]
    cases hm : colIdx m t.headers with
    | none =>
      rw [la_colIdx_append_single hm]
      have : ¬n = m := fun he => hmn he.symm
      simp [this]
    | some j =>
      rw [la_colIdx_append hm]
      simp only [Option.map_some']
      rw [la_map_zipWith_append_lt hlen (fun r hr => hWF r hr)
        (la_colIdx_lt_length hm)]

theorem la_getCol_normalizeHeaders {t : Table} {h : String}
    (hnd : (t.headers.map normName).Nodup) (hm : h ∈ t.headers) :
    (normalizeHeaders t).getCol (normName h) = t.getCol h := by
  simp only [Table.getCol, normalizeHeaders]
  rw [la_colIdx_map_of_nodup hnd hm]

theorem la_WF_normalizeHeaders {t : Table} (hWF : t.WF) :
    (normalizeHeaders t).WF := by
  intro r hr
  simpa [normalizeHeaders] using hWF r hr

theorem la_normalizeHeaders_headers (t : Table) :
    (normalizeHeaders t).headers = t.headers.map normName := rfl

theorem la_normalizeHeaders_rows (t : Table) :
    (normalizeHeaders t).rows = t.rows := rfl

theorem la_cleanPriceVal_ok {v : Value} (h : priceFails v = false) :
    cleanPriceVal v = .ok (cleanPriceT v) := by
  cases v with
  | vstr s =>
    simp only [priceFails, Option.isNone_eq_false_iff, Option.isSome_iff_exists] at h
    obtain ⟨q, hq⟩ := h
    simp [cleanPriceVal, cleanPriceT, hq]
  | vnum q => rfl
  | vnull => rfl

theorem la_cleanPriceVal_err {v : Value} (h : priceFails v = true) :
    cleanPriceVal v = .error .parseError := by
  cases v with
  | vstr s =>
    simp only [priceFails, Option.isNone_iff_eq_none] at h
    simp [cleanPriceVal, h]
  | vnum q => simp [priceFails] at h
  | vnull => simp [priceFails] at h

theorem la_cleanPriceVal_cases (v : Value) :
    cleanPriceVal v = .ok (cleanPriceT v) ∨
      (cleanPriceVal v = .error .parseError ∧ priceFails v = true) := by
  cases hf : priceFails v with
  | false => exact Or.inl (la_cleanPriceVal_ok hf)
  | true => exact Or.inr ⟨la_cleanPriceVal_err hf, rfl⟩

theorem la_mapM_price_ok {l : List Value}
    (h : ∀ v ∈ l, priceFails v = false) :
    l.mapM cleanPriceVal = .ok (l.map cleanPriceT) := by
  induction l with
  | nil => rfl
  | cons a tl ih =>
    rw [List.mapM_cons, la_cleanPriceVal_ok (h a (by simp)), la_ok_bind,
      ih (fun v hv => h v (by simp [hv])), la_ok_bind, la_pure_eq,
      List.map_cons]

theorem la_mapM_price_err {l : List Value} {v : Value} (hm : v ∈ l)
    (h : priceFails v = true) :
    l.mapM cleanPriceVal = .error .parseError := by
  induction l with
  | nil => simp at hm
  | cons a tl ih =>
    rw [List.mapM_cons]
    rcases List.mem_cons.mp hm with rfl | hm'
    · rw [la_cleanPriceVal_err h, la_err_bind]
    · rcases la_cleanPriceVal_cases a with ha | ha
      · rw [ha, la_ok_bind, ih hm', la_err_bind]
      · rw [ha.1, la_err_bind]

theorem la_mapM_price_err_inv {l : List Value} {e : CleanError}
    (h : l.mapM cleanPriceVal = .error e) :
    e = .parseError ∧ ∃ v ∈ l, priceFails v = true := by
  induction l with
  | nil =>
    rw [List.mapM_nil, la_pure_eq] at h
    exact absurd h (by simp)
  | cons a tl ih =>
    rw [List.mapM_cons] at h
    rcases la_cleanPriceVal_cases a with ha | ha
    · rw [ha, la_ok_bind] at h
      cases htl : tl.mapM cleanPriceVal with
      | ok xs =>
        rw [htl, la_ok_bind, la_pure_eq] at h
        exact absurd h (by simp)
      | error e' =>
        rw [htl, la_err_bind] at h
        injection h with h
        subst h
        obtain ⟨he, v, hv, hf⟩ := ih htl
        exact ⟨he, v, by simp [hv], hf⟩
    · rw [ha.1, la_err_bind] at h
      cases h
      exact ⟨rfl, a, by simp, ha.2⟩

theorem la_getCol_none_iff {t : Table} {n : String} :
    t.getCol n = none ↔ n ∉ t.headers := by
  rw [← la_colIdx_isSome_iff]
  cases hc : colIdx n t.headers with
  | none => simp [Table.getCol, hc]
  | some i => simp [Table.getCol, hc]

theorem la_requireCol_ok {t : Table} {n : String} (h : n ∈ t.headers) :
    requireCol t n = .ok (colVals t n) := by
  simp [requireCol, la_getCol_of_mem h]

theorem la_requireCol_err {t : Table} {n : String} (h : n ∉ t.headers) :
    requireCol t n = .error .keyError := by
  simp [requireCol, la_getCol_none_iff.mpr h]

theorem la_colVals_eq {t : Table} {n : String} {vs : List Value}
    (h : t.getCol n = some vs) : colVals t n = vs := by
  simp [colVals, h]

theorem la_mem_of_getCol {t : Table} {n : String} {vs : List Value}
    (h : t.getCol n = some vs) : n ∈ t.headers := by
  by_contra hn
  rw [la_getCol_none_iff.mpr hn] at h
  exact Option.noConfusion h

/-! ### The stages of a successful `clean_data` run -/

def cleanT1 (df : Table) : Table :=
  df.setCol "Price" ((colVals df "Price").map cleanPriceT)

def cleanT2 (df : Table) : Table :=
  (cleanT1 df).setCol "Ram" ((colVals (cleanT1 df) "Ram").map extractNum)

def cleanT3 (df : Table) : Table :=
  (cleanT2 df).setCol "SSD" ((colVals (cleanT2 df) "SSD").map extractNum)

def cleanT4 (df : Table) : Table :=
  normalizeHeaders (cleanT3 df)

def cleanT5 (df : Table) : Table :=
  (cleanT4 df).setCol "rating" ((colVals (cleanT4 df) "rating").map fillZero)

def cleanT6 (df : Table) : Table :=
  (cleanT5 df).setCol "brand" ((colVals (cleanT5 df) "model").map splitFirst)

def cleanT7 (df : Table) : Table :=
  (cleanT6 df).setCol "brand" ((colVals (cleanT6 df) "brand").map replaceBrand)

/-- The shape `clean_data` expects of its input: well-formed, no column
names clashing after normalization, the `Price`/`Ram`/`SSD` columns under
exactly those names, and columns normalizing to `rating` and `model`. -/
structure CleanReady (df : Table) : Prop where
  wf : df.WF
  nodup : (df.headers.map normName).Nodup
  price : "Price" ∈ df.headers
  ram : "Ram" ∈ df.headers
  ssd : "SSD" ∈ df.headers
  rating : "rating" ∈ df.headers.map normName
  model : "model" ∈ df.headers.map normName

section Stages

variable {df : Table} (h : CleanReady df)

theorem la_T1_len (h : CleanReady df) :
    ((colVals df "Price").map cleanPriceT).length = df.rows.length := by
  simpa using la_colVals_length h.price

theorem la_T1_headers (h : CleanReady df) :
    (cleanT1 df).headers = df.headers :=
  la_setCol_headers_of_mem h.price _

theorem la_T1_WF (h : CleanReady df) : (cleanT1 df).WF :=
  la_WF_setCol h.wf

theorem la_T1_rows (h : CleanReady df) :
    (cleanT1 df).rows.length = df.rows.length :=
  la_setCol_rows_length (la_T1_len h)

theorem la_T1_price (h : CleanReady df) :
    (cleanT1 df).getCol "Price" = some ((colVals df "Price").map cleanPriceT) :=
  la_getCol_setCol_self h.wf (la_T1_len h)

theorem la_T1_ne (h : CleanReady df) {m : String} (hm : m ≠ "Price") :
    (cleanT1 df).getCol m = df.getCol m :=
  la_getCol_setCol_ne h.wf (la_T1_len h) hm

theorem la_T1_ram_vals (h : CleanReady df) :
    colVals (cleanT1 df) "Ram" = colVals df "Ram" :=
  la_colVals_eq ((la_T1_ne h (by decide)).trans (la_getCol_of_mem h.ram))

theorem la_T2_len (h : CleanReady df) :
    ((colVals (cleanT1 df) "Ram").map extractNum).length
      = (cleanT1 df).rows.length := by
  rw [List.length_map, la_T1_ram_vals h, la_T1_rows h]
  exact la_colVals_length h.ram

theorem la_T2_headers (h : CleanReady df) :
    (cleanT2 df).headers = df.headers := by
  rw [cleanT2, la_setCol_headers_of_mem, la_T1_headers h]
  rw [la_T1_headers h]
  exact h.ram

theorem la_T2_WF (h : CleanReady df) : (cleanT2 df).WF :=
  la_WF_setCol (la_T1_WF h)

theorem la_T2_rows (h : CleanReady df) :
    (cleanT2 df).rows.length = df.rows.length := by
  rw [cleanT2, la_setCol_rows_length (la_T2_len h), la_T1_rows h]

theorem la_T2_ram (h : CleanReady df) :
    (cleanT2 df).getCol "Ram" = some ((colVals df "Ram").map extractNum) := by
  rw [cleanT2, la_getCol_setCol_self (la_T1_WF h) (la_T2_len h),
    la_T1_ram_vals h]

theorem la_T2_ne (h : CleanReady df) {m : String} (hm : m ≠ "Ram") :
    (cleanT2 df).getCol m = (cleanT1 df).getCol m :=
  la_getCol_setCol_ne (la_T1_WF h) (la_T2_len h) hm

theorem la_T2_ssd_vals (h : CleanReady df) :
    colVals (cleanT2 df) "SSD" = colVals df "SSD" :=
  la_colVals_eq (((la_T2_ne h (by decide)).trans
    (la_T1_ne h (by decide))).trans (la_getCol_of_mem h.ssd))

theorem la_T3_len (h : CleanReady df) :
    ((colVals (cleanT2 df) "SSD").map extractNum).length
      = (cleanT2 df).rows.length := by
  rw [List.length_map, la_T2_ssd_vals h, la_T2_rows h]
  exact la_colVals_length h.ssd

theorem la_T3_headers (h : CleanReady df) :
    (cleanT3 df).headers = df.headers := by
  rw [cleanT3, la_setCol_headers_of_mem, la_T2_headers h]
  rw [la_T2_headers h]
  exact h.ssd

theorem la_T3_WF (h : CleanReady df) : (cleanT3 df).WF :=
  la_WF_setCol (la_T2_WF h)

theorem la_T3_rows (h : CleanReady df) :
    (cleanT3 df).rows.length = df.rows.length := by
  rw [cleanT3, la_setCol_rows_length (la_T3_len h), la_T2_rows h]

theorem la_T3_ssd (h : CleanReady df) :
    (cleanT3 df).getCol "SSD" = some ((colVals df "SSD").map extractNum) := by
  rw [cleanT3, la_getCol_setCol_self (la_T2_WF h) (la_T3_len h),
    la_T2_ssd_vals h]

theorem la_T3_ne (h : CleanReady df) {m : String} (hm : m ≠ "SSD") :
    (cleanT3 df).getCol m = (cleanT2 df).getCol m :=
  la_getCol_setCol_ne (la_T2_WF h) (la_T3_len h) hm

theorem la_T3_price (h : CleanReady df) :
    (cleanT3 df).getCol "Price" = some ((colVals df "Price").map cleanPriceT) :=
  ((la_T3_ne h (by decide)).trans (la_T2_ne h (by decide))).trans
    (la_T1_price h)

theorem la_T3_ram (h : CleanReady df) :
    (cleanT3 df).getCol "Ram" = some ((colVals df "Ram").map extractNum) :=
  (la_T3_ne h (by decide)).trans (la_T2_ram h)

theorem la_T3_orig (h : CleanReady df) {m : String} (h1 : m ≠ "Price")
    (h2 : m ≠ "Ram") (h3 : m ≠ "SSD") :
    (cleanT3 df).getCol m = df.getCol m :=
  ((la_T3_ne h h3).trans (la_T2_ne h h2)).trans (la_T1_ne h h1)

end Stages

section Stages2

variable {df : Table}

theorem la_T4_headers (h : CleanReady df) :
    (cleanT4 df).headers = df.headers.map normName := by
  rw [cleanT4, la_normalizeHeaders_headers, la_T3_headers h]

theorem la_T4_WF (h : CleanReady df) : (cleanT4 df).WF :=
  la_WF_normalizeHeaders (la_T3_WF h)

theorem la_T4_rows (h : CleanReady df) :
    (cleanT4 df).rows.length = df.rows.length := by
  rw [cleanT4, la_normalizeHeaders_rows]
  exact la_T3_rows h

theorem la_T4_norm (h : CleanReady df) {m : String} (hm : m ∈ df.headers) :
    (cleanT4 df).getCol (normName m) = (cleanT3 df).getCol m := by
  rw [cleanT4]
  exact la_getCol_normalizeHeaders
    (by rw [la_T3_headers h]; exact h.nodup)
    (by rw [la_T3_headers h]; exact hm)

theorem la_T4_price (h : CleanReady df) :
    (cleanT4 df).getCol "price" = some ((colVals df "Price").map cleanPriceT) := by
  have hn : normName "Price" = "price" := by decide
  rw [← hn, la_T4_norm h h.price]
  exact la_T3_price h

theorem la_T4_ram (h : CleanReady df) :
    (cleanT4 df).getCol "ram" = some ((colVals df "Ram").map extractNum) := by
  have hn : normName "Ram" = "ram" := by decide
  rw [← hn, la_T4_norm h h.ram]
  exact la_T3_ram h

theorem la_T4_ssd (h : CleanReady df) :
    (cleanT4 df).getCol "ssd" = some ((colVals df "SSD").map extractNum) := by
  have hn : normName "SSD" = "ssd" := by decide
  rw [← hn, la_T4_norm h h.ssd]
  exact la_T3_ssd h

theorem la_T4_rating (h : CleanReady df) {m : String} (hm : m ∈ df.headers)
    (he : normName m = "rating") :
    (cleanT4 df).getCol "rating" = df.getCol m := by
  have h1 : m ≠ "Price" := by
    intro heq; rw [heq] at he; exact absurd he (by decide)
  have h2 : m ≠ "Ram" := by
    intro heq; rw [heq] at he; exact absurd he (by decide)
  have h3 : m ≠ "SSD" := by
    intro heq; rw [heq] at he; exact absurd he (by decide)
  rw [← he, la_T4_norm h hm]
  exact la_T3_orig h h1 h2 h3

theorem la_T4_model (h : CleanReady df) {m : String} (hm : m ∈ df.headers)
    (he : normName m = "model") :
    (cleanT4 df).getCol "model" = df.getCol m := by
  have h1 : m ≠ "Price" := by
    intro heq; rw [heq] at he; exact absurd he (by decide)
  have h2 : m ≠ "Ram" := by
    intro heq; rw [heq] at he; exact absurd he (by decide)
  have h3 : m ≠ "SSD" := by
    intro heq; rw [heq] at he; exact absurd he (by decide)
  rw [← he, la_T4_norm h hm]
  exact la_T3_orig h h1 h2 h3

theorem la_T4_rating_mem (h : CleanReady df) :
    "rating" ∈ (cleanT4 df).headers := by
  rw [la_T4_headers h]; exact h.rating

theorem la_T5_len (h : CleanReady df) :
    ((colVals (cleanT4 df) "rating").map fillZero).length
      = (cleanT4 df).rows.length := by
  rw [List.length_map]
  exact la_colVals_length (la_T4_rating_mem h)

theorem la_T5_headers (h : CleanReady df) :
    (cleanT5 df).headers = (cleanT4 df).headers :=
  la_setCol_headers_of_mem (la_T4_rating_mem h) _

theorem la_T5_WF (h : CleanReady df) : (cleanT5 df).WF :=
  la_WF_setCol (la_T4_WF h)

theorem la_T5_rows (h : CleanReady df) :
    (cleanT5 df).rows.length = df.rows.length := by
  rw [cleanT5, la_setCol_rows_length (la_T5_len h)]
  exact la_T4_rows h

theorem la_T5_rating (h : CleanReady df) {m : String} (hm : m ∈ df.headers)
    (he : normName m = "rating") :
    (cleanT5 df).getCol "rating" = some ((colVals df m).map fillZero) := by
  rw [cleanT5, la_getCol_setCol_self (la_T4_WF h) (la_T5_len h)]
  rw [la_colVals_eq ((la_T4_rating h hm he).trans (la_getCol_of_mem hm))]

theorem la_T5_ne (h : CleanReady df) {m : String} (hm : m ≠ "rating") :
    (cleanT5 df).getCol m = (cleanT4 df).getCol m :=
  la_getCol_setCol_ne (la_T4_WF h) (la_T5_len h) hm

theorem la_T5_model_mem (h : CleanReady df) :
    "model" ∈ (cleanT5 df).headers := by
  rw [la_T5_headers h, la_T4_headers h]; exact h.model

theorem la_T5_model_vals (h : CleanReady df) {m : String} (hm : m ∈ df.headers)
    (he : normName m = "model") :
    colVals (cleanT5 df) "model" = colVals df m :=
  la_colVals_eq (((la_T5_ne h (by decide)).trans
    (la_T4_model h hm he)).trans (la_getCol_of_mem hm))

theorem la_T6_len (h : CleanReady df) :
    ((colVals (cleanT5 df) "model").map splitFirst).length
      = (cleanT5 df).rows.length := by
  rw [List.length_map]
  exact la_colVals_length (la_T5_model_mem h)

theorem la_T6_WF (h : CleanReady df) : (cleanT6 df).WF :=
  la_WF_setCol (la_T5_WF h)

theorem la_T6_rows (h : CleanReady df) :
    (cleanT6 df).rows.length = df.rows.length := by
  rw [cleanT6, la_setCol_rows_length (la_T6_len h)]
  exact la_T5_rows h

theorem la_T6_brand (h : CleanReady df) :
    (cleanT6 df).getCol "brand"
      = some ((colVals (cleanT5 df) "model").map splitFirst) :=
  la_getCol_setCol_self (la_T5_WF h) (la_T6_len h)

theorem la_T6_ne (h : CleanReady df) {m : String} (hm : m ≠ "brand") :
    (cleanT6 df).getCol m = (cleanT5 df).getCol m :=
  la_getCol_setCol_ne (la_T5_WF h) (la_T6_len h) hm

theorem la_T7_len (h : CleanReady df) :
    ((colVals (cleanT6 df) "brand").map replaceBrand).length
      = (cleanT6 df).rows.length := by
  rw [List.length_map, la_colVals_eq (la_T6_brand h), List.length_map,
    la_T6_rows h]
  rw [la_colVals_length (la_T5_model_mem h), la_T5_rows h]

theorem la_T7_WF (h : CleanReady df) : (cleanT7 df).WF :=
  la_WF_setCol (la_T6_WF h)

theorem la_T7_brand (h : CleanReady df) {m : String} (hm : m ∈ df.headers)
    (he : normName m = "model") :
    (cleanT7 df).getCol "brand" = some ((colVals df m).map deriveBrand) := by
  rw [cleanT7, la_getCol_setCol_self (la_T6_WF h) (la_T7_len h),
    la_colVals_eq (la_T6_brand h), la_T5_model_vals h hm he, List.map_map]
  rfl

theorem la_T7_ne (h : CleanReady df) {m : String} (hm : m ≠ "brand") :
    (cleanT7 df).getCol m = (cleanT6 df).getCol m :=
  la_getCol_setCol_ne (la_T6_WF h) (la_T7_len h) hm

theorem la_final_price (h : CleanReady df) :
    (cleanT7 df).getCol "price" = some ((colVals df "Price").map cleanPriceT) :=
  (((la_T7_ne h (by decide)).trans (la_T6_ne h (by decide))).trans
    (la_T5_ne h (by decide))).trans (la_T4_price h)

theorem la_final_ram (h : CleanReady df) :
    (cleanT7 df).getCol "ram" = some ((colVals df "Ram").map extractNum) :=
  (((la_T7_ne h (by decide)).trans (la_T6_ne h (by decide))).trans
    (la_T5_ne h (by decide))).trans (la_T4_ram h)

theorem la_final_ssd (h : CleanReady df) :
    (cleanT7 df).getCol "ssd" = some ((colVals df "SSD").map extractNum) :=
  (((la_T7_ne h (by decide)).trans (la_T6_ne h (by decide))).trans
    (la_T5_ne h (by decide))).trans (la_T4_ssd h)

theorem la_final_rating (h : CleanReady df) {m : String} (hm : m ∈ df.headers)
    (he : normName m = "rating") :
    (cleanT7 df).getCol "rating" = some ((colVals df m).map fillZero) :=
  ((la_T7_ne h (by decide)).trans (la_T6_ne h (by decide))).trans
    (la_T5_rating h hm he)

theorem la_final_headers (h : CleanReady df) {m : String}
    (hm : m ∈ df.headers) : normName m ∈ (cleanT7 df).headers := by
  apply la_mem_headers_setCol
  apply la_mem_headers_setCol
  rw [la_T5_headers h, la_T4_headers h]
  exact List.mem_map_of_mem normName hm

end Stages2

/-- Under the expected input shape, with every price parsing, `clean_data`
succeeds and returns exactly the staged table `cleanT7 df`. -/
theorem la_clean_data_run {df : Table} (h : CleanReady df)
    (hok : ∀ v ∈ colVals df "Price", priceFails v = false) :
    clean_data df = .ok (cleanT7 df) := by
  have e1 : requireCol df "Price" = .ok (colVals df "Price") :=
    la_requireCol_ok h.price
  have e2 : (colVals df "Price").mapM cleanPriceVal
      = .ok ((colVals df "Price").map cleanPriceT) := la_mapM_price_ok hok
  have f1 : df.setCol "Price" ((colVals df "Price").map cleanPriceT)
      = cleanT1 df := rfl
  have e3 : requireCol (cleanT1 df) "Ram"
      = .ok (colVals (cleanT1 df) "Ram") :=
    la_requireCol_ok (by rw [la_T1_headers h]; exact h.ram)
  have f2 : (cleanT1 df).setCol "Ram"
      ((colVals (cleanT1 df) "Ram").map extractNum) = cleanT2 df := rfl
  have e4 : requireCol (cleanT2 df) "SSD"
      = .ok (colVals (cleanT2 df) "SSD") :=
    la_requireCol_ok (by rw [la_T2_headers h]; exact h.ssd)
  have f3 : (cleanT2 df).setCol "SSD"
      ((colVals (cleanT2 df) "SSD").map extractNum) = cleanT3 df := rfl
  have f4 : normalizeHeaders (cleanT3 df) = cleanT4 df := rfl
  have e5 : requireCol (cleanT4 df) "rating"
      = .ok (colVals (cleanT4 df) "rating") :=
    la_requireCol_ok (la_T4_rating_mem h)
  have f5 : (cleanT4 df).setCol "rating"
      ((colVals (cleanT4 df) "rating").map fillZero) = cleanT5 df := rfl
  have e6 : requireCol (cleanT5 df) "model"
      = .ok (colVals (cleanT5 df) "model") :=
    la_requireCol_ok (la_T5_model_mem h)
  have f6 : (cleanT5 df).setCol "brand"
      ((colVals (cleanT5 df) "model").map splitFirst) = cleanT6 df := rfl
  have f7 : (cleanT6 df).setCol "brand"
      ((colVals (cleanT6 df) "brand").map replaceBrand) = cleanT7 df := rfl
  simp only [clean_data, e1, la_ok_bind, e2, f1, e3, f2, e4, f3, f4, e5,
    f5, e6, f6, f7, la_pure_eq]

theorem la_requireCol_error_inv {t : Table} {n : String} {e : CleanError}
    (h : requireCol t n = .error e) : e = .keyError := by
  unfold requireCol at h
  cases hg : t.getCol n <;> simp [hg] at h
  exact h.symm

theorem la_req_bind_inv {t : Table} {n : String}
    {f : List Value → Except CleanError Table} {res : Except CleanError Table}
    (h : requireCol t n >>= f = res) :
    res = .error .keyError ∨ ∃ vs, t.getCol n = some vs ∧ f vs = res := by
  unfold requireCol at h
  cases hg : t.getCol n with
  | none =>
    simp only [hg] at h
    rw [la_err_bind] at h
    exact Or.inl h.symm
  | some vs =>
    simp only [hg] at h
    rw [la_ok_bind] at h
    exact Or.inr ⟨vs, rfl, h⟩

/-- `clean_data` raises a parse error exactly when some `Price` cell is a
string that is not numeric after stripping `₹` and `,`. -/
theorem la_clean_data_parse_iff {df : Table} (hP : "Price" ∈ df.headers) :
    clean_data df = .error .parseError
      ↔ ∃ v ∈ colVals df "Price", priceFails v = true := by
  constructor
  · intro hcd
    simp only [clean_data, la_requireCol_ok hP, la_ok_bind] at hcd
    cases hm : (colVals df "Price").mapM cleanPriceVal with
    | error e => exact (la_mapM_price_err_inv hm).2
    | ok pv2 =>
      rw [hm, la_ok_bind] at hcd
      exfalso
      rcases la_req_bind_inv hcd with hk | ⟨rv, _, hcd⟩
      · simp at hk
      rcases la_req_bind_inv hcd with hk | ⟨sv, _, hcd⟩
      · simp at hk
      rcases la_req_bind_inv hcd with hk | ⟨gv, _, hcd⟩
      · simp at hk
      rcases la_req_bind_inv hcd with hk | ⟨mv, _, hcd⟩
      · simp at hk
      simp [la_pure_eq] at hcd
  · rintro ⟨v, hv, hf⟩
    simp only [clean_data, la_requireCol_ok hP, la_ok_bind,
      la_mapM_price_err hv hf, la_err_bind]

theorem la_takeWhile_all {p : Char → Bool} {l : List Char}
    (h : ∀ c ∈ l, p c = true) : l.takeWhile p = l := by
  induction l with
  | nil => rfl
  | cons c tl ih =>
    have hc := h c (by simp)
    simp [List.takeWhile_cons, hc, ih (fun d hd => h d (by simp [hd]))]

theorem la_dropWhile_all {p : Char → Bool} {l : List Char}
    (h : ∀ c ∈ l, p c = true) : l.dropWhile p = [] := by
  induction l with
  | nil => rfl
  | cons c tl ih =>
    have hc := h c (by simp)
    simp [List.dropWhile_cons, hc, ih (fun d hd => h d (by simp [hd]))]

theorem la_takeWhile_head_false {p : Char → Bool} {l : List Char}
    (h : ∀ c, l.head? = some c → p c = false) : l.takeWhile p = [] := by
  cases l with
  | nil => rfl
  | cons c tl => simp [List.takeWhile_cons, h c rfl]

theorem la_takeWhile_append_all {p : Char → Bool} {l₁ l₂ : List Char}
    (h : ∀ c ∈ l₁, p c = true) :
    (l₁ ++ l₂).takeWhile p = l₁ ++ l₂.takeWhile p := by
  induction l₁ with
  | nil => rfl
  | cons c tl ih =>
    have hc := h c (by simp)
    simp [List.takeWhile_cons, hc, ih (fun d hd => h d (by simp [hd]))]

theorem la_firstDigitRun_none {l : List Char}
    (h : ∀ c ∈ l, c.isDigit = false) : firstDigitRun l = none := by
  induction l with
  | nil => rfl
  | cons c tl ih =>
    have hc := h c (by simp)
    simp [firstDigitRun, hc, ih (fun d hd => h d (by simp [hd]))]

theorem la_firstDigitRun_decomp {pre run post : List Char}
    (hpre : ∀ c ∈ pre, c.isDigit = false) (hne : run ≠ [])
    (hrun : ∀ c ∈ run, c.isDigit = true)
    (hpost : ∀ c, post.head? = some c → c.isDigit = false) :
    firstDigitRun (pre ++ run ++ post) = some run := by
  induction pre with
  | nil =>
    cases run with
    | nil => exact absurd rfl hne
    | cons r rs =>
      have hr : r.isDigit = true := hrun r (by simp)
      have hrs : ∀ d ∈ rs, d.isDigit = true := fun d hd => hrun d (by simp [hd])
      simp only [List.nil_append, List.cons_append, firstDigitRun, hr, if_true,
        List.append_eq]
      rw [la_takeWhile_append_all hrs, la_takeWhile_head_false hpost,
        List.append_nil]
  | cons c tl ih =>
    have hc : c.isDigit = false := hpre c (by simp)
    simp only [List.cons_append, firstDigitRun, hc]
    simp only [Bool.false_eq_true, if_false]
    exact ih (fun d hd => hpre d (by simp [hd]))

theorem la_firstTokenL_some {l : List Char}
    (h : ∃ c ∈ l, c.isWhitespace = false) :
    ∃ tk, firstTokenL l = some tk := by
  induction l with
  | nil => simp at h
  | cons c tl ih =>
    by_cases hw : c.isWhitespace
    · obtain ⟨d, hd, hdw⟩ := h
      rcases List.mem_cons.mp hd with rfl | hd'
      · rw [hw] at hdw; exact absurd hdw (by simp)
      · rw [firstTokenL, if_pos hw]
        exact ih ⟨d, hd', hdw⟩
    · exact ⟨_, by rw [firstTokenL, if_neg hw]⟩

theorem la_string_data_append (a b : String) :
    (a ++ b).data = a.data ++ b.data := by
  cases a
  cases b
  rfl

theorem la_parseUnsigned_digits {l : List Char} (hne : l ≠ [])
    (h : ∀ c ∈ l, c.isDigit = true) :
    parseUnsigned l = some ((digitsVal l : ℚ)) := by
  have hE : l.isEmpty = false := by
    cases l with
    | nil => exact absurd rfl hne
    | cons c tl => rfl
  unfold parseUnsigned
  rw [la_dropWhile_all h]
  simp [la_takeWhile_all h, hE]

theorem la_parseFloat_digits {l : List Char} (hne : l ≠ [])
    (h : ∀ c ∈ l, c.isDigit = true) :
    parseFloat (String.mk l) = some ((digitsVal l : ℚ)) := by
  cases l with
  | nil => exact absurd rfl hne
  | cons c tl =>
    have hc : c.isDigit = true := h c (by simp)
    have hplus : ¬c = '+' := by
      intro he; rw [he] at hc; exact absurd hc (by decide)
    have hminus : ¬c = '-' := by
      intro he; rw [he] at hc; exact absurd hc (by decide)
    show parseFloat ⟨c :: tl⟩ = _
    unfold parseFloat
    simp only [if_neg hplus, if_neg hminus]
    exact la_parseUnsigned_digits hne h

theorem la_doubleFilter {l : List Char}
    (h : ∀ c ∈ l, c.isDigit = true ∨ c = ',') :
    (l.filter fun c => c != '₹').filter (fun c => c != ',')
      = l.filter Char.isDigit := by
  induction l with
  | nil => rfl
  | cons c tl ih =>
    have ihtl := ih (fun d hd => h d (by simp [hd]))
    rcases h c (by simp) with hd | hd
    · have h1 : (c != '₹') = true := by
        simp only [bne_iff_ne, ne_eq]
        intro he; rw [he] at hd; exact absurd hd (by decide)
      have h2 : (c != ',') = true := by
        simp only [bne_iff_ne, ne_eq]
        intro he; rw [he] at hd; exact absurd hd (by decide)
      simp [List.filter_cons, h1, h2, hd, ihtl]
    · subst hd
      have e1 : ((',' != '₹') : Bool) = true := by decide
      have e2 : ((',' != ',') : Bool) = false := by decide
      have e3 : (',').isDigit = false := by decide
      simp [List.filter_cons, e1, e2, e3, ihtl]

theorem la_stripPrice_currency {s : String}
    (h : ∀ c ∈ s.data, c.isDigit = true ∨ c = ',') :
    stripPrice ("₹" ++ s) = String.mk (s.data.filter Char.isDigit) := by
  unfold stripPrice
  rw [la_string_data_append]
  show String.mk ((('₹' :: s.data).filter fun c => c != '₹').filter
    fun c => c != ',') = _
  have e1 : (('₹' != '₹') : Bool) = false := by decide
  rw [List.filter_cons, e1]
  simp only [Bool.false_eq_true, if_false]
  rw [la_doubleFilter h]

theorem la_cleanPrice_currency {s : String}
    (h : ∀ c ∈ s.data, c.isDigit = true ∨ c = ',')
    (hd : ∃ c ∈ s.data, c.isDigit = true) :
    cleanPriceVal (.vstr ("₹" ++ s))
      = .ok (.vnum ((digitsVal (s.data.filter Char.isDigit) : ℚ))) := by
  have hne : s.data.filter Char.isDigit ≠ [] := by
    obtain ⟨c, hc, hcd⟩ := hd
    exact List.ne_nil_of_mem (List.mem_filter.mpr ⟨hc, hcd⟩)
  have hall : ∀ c ∈ s.data.filter Char.isDigit, c.isDigit = true :=
    fun c hc => (List.mem_filter.mp hc).2
  simp [cleanPriceVal, la_stripPrice_currency h,
    la_parseFloat_digits hne hall]

theorem la_extractNum_none {s : String}
    (h : ∀ c ∈ s.data, c.isDigit = false) :
    extractNum (.vstr s) = .vnull := by
  simp [extractNum, la_firstDigitRun_none h]

theorem la_firstDigitRun_some {l : List Char}
    (h : ∃ c ∈ l, c.isDigit = true) :
    ∃ ds, firstDigitRun l = some ds := by
  induction l with
  | nil => simp at h
  | cons c tl ih =>
    by_cases hc : c.isDigit
    · exact ⟨_, by rw [firstDigitRun, if_pos hc]⟩
    · obtain ⟨d, hd, hdd⟩ := h
      rcases List.mem_cons.mp hd with rfl | hd'
      · exact absurd hdd hc
      · rw [firstDigitRun, if_neg hc]
        exact ih ⟨d, hd', hdd⟩

theorem la_deriveBrand_some {s : String}
    (h : ∃ c ∈ s.data, c.isWhitespace = false) :
    ∃ b, deriveBrand (Value.vstr s) = Value.vstr b := by
  obtain ⟨tk, htk⟩ := la_firstTokenL_some h
  exact ⟨brandReplace (String.mk tk),
    by simp [deriveBrand, splitFirst, htk, replaceBrand]⟩

theorem la_assignCategories_category {df : Table} (hWF : df.WF)
    (hm : "model" ∈ df.headers) (hb : "brand" ∈ df.headers) :
    (assignCategories df).getCol "category"
      = some (List.zipWith (fun m b => Value.vstr (rowCategory m b))
          (colVals df "model") (colVals df "brand")) := by
  apply la_getCol_setCol_self hWF
  rw [List.length_zipWith, la_colVals_length hm, la_colVals_length hb,
    Nat.min_self]

/-! ### Claims -/

/-- C1 (counterexample): the record with model "Apple Gaming Slim" has a
model containing "Gaming" and canonical brand "Apple", yet its final
category is "Ultrabook", not "Apple" — the Ultrabook rule, applied last,
overwrites the Apple tag, so the claim's second clause is false as
stated. -/
theorem C1_counterexample :
    strContainsCI (Value.vstr "Apple Gaming Slim") "Gaming" = true ∧
    deriveBrand (Value.vstr "Apple Gaming Slim") = Value.vstr "Apple" ∧
    rowCategory (Value.vstr "Apple Gaming Slim")
      (deriveBrand (Value.vstr "Apple Gaming Slim")) = "Ultrabook" ∧
    ("Ultrabook" : String) ≠ "Apple" := by decide

/-- C1 (amended): category assignment applies its rules in fixed order
with later rules unconditionally overwriting earlier tags: a record
matching no rule stays "General"; a record whose model contains "Gaming"
(case-insensitive) and whose brand is "Apple" ends up "Apple" rather than
"Gaming", provided its model does not also match the Ultrabook rule; and
a record matching both "Gaming" and one of "Ultrabook"/"Thin"/"Slim" ends
up "Ultrabook". -/
theorem C1_category_priority (model brand : Value) :
    (strContainsCI model "Gaming" = false → ¬brand = Value.vstr "Apple" →
      ultraMatch model = false → rowCategory model brand = "General") ∧
    (strContainsCI model "Gaming" = true → brand = Value.vstr "Apple" →
      ultraMatch model = false → rowCategory model brand = "Apple") ∧
    (strContainsCI model "Gaming" = true → ultraMatch model = true →
      rowCategory model brand = "Ultrabook") := by
  refine ⟨fun h1 h2 h3 => ?_, fun h1 h2 h3 => ?_, fun h1 h2 => ?_⟩
  · simp [rowCategory, h1, h2, h3]
  · simp [rowCategory, h1, h2, h3]
  · simp [rowCategory, h1, h2]

/-- C1 (witness): the three rules at concrete rows. -/
theorem C1_witness :
    rowCategory (Value.vstr "Dell XPS 13") (Value.vstr "Dell") = "General" ∧
    rowCategory (Value.vstr "Apple MacBook Gaming") (Value.vstr "Apple")
      = "Apple" ∧
    rowCategory (Value.vstr "HP Gaming Slim 15") (Value.vstr "HP")
      = "Ultrabook" :=
  ⟨(C1_category_priority _ _).1 (by decide) (by decide) (by decide),
   (C1_category_priority _ _).2.1 (by decide) (by decide) (by decide),
   (C1_category_priority _ _).2.2 (by decide) (by decide)⟩

/-- C3: for every Ram/SSD string, the extracted value is the float value
of the first contiguous digit run found anywhere in the string (all
surrounding text discarded), and a string with no digit resolves to the
missing value rather than a number. -/
theorem C3_numeric_extraction (s : String) :
    (∀ pre run post, s.data = pre ++ run ++ post →
      (∀ c ∈ pre, c.isDigit = false) → run ≠ [] →
      (∀ c ∈ run, c.isDigit = true) →
      (∀ c, post.head? = some c → c.isDigit = false) →
      extractNum (Value.vstr s) = Value.vnum ((digitsVal run : ℚ))) ∧
    ((∀ c ∈ s.data, c.isDigit = false) →
      extractNum (Value.vstr s) = Value.vnull) := by
  constructor
  · intro pre run post hs hpre hne hrun hpost
    have hd := la_firstDigitRun_decomp hpre hne hrun hpost
    rw [List.append_assoc] at hd
    simp [extractNum, hs, hd]
  · intro h
    exact la_extractNum_none h

/-- C3 (witness): "16 GB" yields 16.0, "512GB" yields 512.0 and a
digitless string yields the missing value. -/
theorem C3_witness :
    extractNum (Value.vstr "16 GB") = Value.vnum 16 ∧
    extractNum (Value.vstr "512GB") = Value.vnum 512 ∧
    extractNum (Value.vstr "No Storage") = Value.vnull := by
  refine ⟨?_, ?_, ?_⟩
  · exact ((C3_numeric_extraction "16 GB").1 [] ['1', '6'] [' ', 'G', 'B']
      (by decide) (by decide) (by decide) (by decide) (by decide)).trans
      (by decide)
  · exact ((C3_numeric_extraction "512GB").1 [] ['5', '1', '2'] ['G', 'B']
      (by decide) (by decide) (by decide) (by decide) (by decide)).trans
      (by decide)
  · exact (C3_numeric_extraction "No Storage").2 (by decide)

/-- C4: for every price string "₹" followed by digits and comma
separators, price normalization returns exactly the value of the digits
with the separators removed. -/
theorem C4_price_normalization (s : String)
    (hchars : ∀ c ∈ s.data, c.isDigit = true ∨ c = ',')
    (hdig : ∃ c ∈ s.data, c.isDigit = true) :
    cleanPriceVal (Value.vstr ("₹" ++ s))
      = .ok (Value.vnum ((digitsVal (s.data.filter Char.isDigit) : ℚ))) :=
  la_cleanPrice_currency hchars hdig

/-- C4 (witness): "₹12,345" normalizes to exactly 12345. -/
theorem C4_witness :
    cleanPriceVal (Value.vstr ("₹" ++ "12,345"))
      = .ok (Value.vnum 12345) ∧ "₹" ++ "12,345" = "₹12,345" :=
  ⟨(C4_price_normalization "12,345" (by decide) (by decide)).trans
    (by decide), by decide⟩

/-- C5: cleaning fails with a parse error exactly when some Price cell is
a string that is not numeric after stripping the currency symbol and the
thousands separators; on any failure no output table is produced. -/
theorem C5_price_error_policy (df : Table) (hP : "Price" ∈ df.headers) :
    (clean_data df = .error .parseError
      ↔ ∃ v ∈ colVals df "Price", priceFails v = true) ∧
    (∀ e, clean_data df = .error e → ∀ t, clean_data df ≠ .ok t) :=
  ⟨la_clean_data_parse_iff hP,
   fun e he t ht => by rw [he] at ht; exact Except.noConfusion ht⟩

/-- C5 (witness): a table whose only price is "₹abc" makes the whole
cleaning fail with a parse error. -/
theorem C5_witness :
    clean_data ⟨["Price"], [[Value.vstr "₹abc"]]⟩ = .error .parseError :=
  (C5_price_error_policy ⟨["Price"], [[Value.vstr "₹abc"]]⟩ (by decide)).1.mpr
    ⟨Value.vstr "₹abc", by decide, by decide⟩

/-- C6 (counterexample): the category-derivation step does not leave the
table it is given unchanged — on a concrete table the caller's frame
after `analyze_categories` differs from the frame before the call (the
`category` column has been written into it). -/
theorem C6_counterexample :
    analyze_categories_effect ⟨["model", "brand"],
        [[Value.vstr "Apple Gaming Slim", Value.vstr "Apple"]]⟩
      ≠ ⟨["model", "brand"],
        [[Value.vstr "Apple Gaming Slim", Value.vstr "Apple"]]⟩ := by decide

/-- C6 (amended): `clean_data` itself is pure — it copies its input and
the caller's table is unchanged after the call — but the
category-derivation step mutates the table it is given, assigning the
`category` column in place, row by row from `model` and `brand` (and
returns no new table). -/
theorem C6_purity (df : Table) :
    clean_data_effect df = df ∧
    (df.WF → "model" ∈ df.headers → "brand" ∈ df.headers →
      (analyze_categories_effect df).getCol "category"
        = some (List.zipWith (fun m b => Value.vstr (rowCategory m b))
            (colVals df "model") (colVals df "brand"))) :=
  ⟨rfl, fun hWF hm hb => la_assignCategories_category hWF hm hb⟩

/-- C6 (witness): the two effects at a concrete table. -/
theorem C6_witness :
    clean_data_effect ⟨["model", "brand"],
        [[Value.vstr "HP Gaming 15", Value.vstr "HP"]]⟩
      = ⟨["model", "brand"], [[Value.vstr "HP Gaming 15", Value.vstr "HP"]]⟩ ∧
    (analyze_categories_effect ⟨["model", "brand"],
        [[Value.vstr "HP Gaming 15", Value.vstr "HP"]]⟩).getCol "category"
      = some (List.zipWith (fun m b => Value.vstr (rowCategory m b))
          (colVals ⟨["model", "brand"],
            [[Value.vstr "HP Gaming 15", Value.vstr "HP"]]⟩ "model")
          (colVals ⟨["model", "brand"],
            [[Value.vstr "HP Gaming 15", Value.vstr "HP"]]⟩ "brand")) :=
  ⟨(C6_purity _).1,
   (C6_purity _).2 (by decide) (by decide) (by decide)⟩

/-- C7 (counterexample): a table carrying all required columns but with
`Price` spelled "PRICE" is rejected with a `KeyError` — the `Price`,
`Ram` and `SSD` columns are read case-sensitively before any column-name
normalization, so cleaning does not accept arbitrary casing. -/
theorem C7_counterexample :
    clean_data ⟨["PRICE", "Ram", "SSD", "Rating", "Model"],
        [[Value.vstr "₹1,000", Value.vstr "8 GB", Value.vstr "256 GB",
          Value.vnum 45, Value.vstr "HP X"]]⟩ = .error .keyError ∧
    normName "PRICE" = "price" := by decide

/-- C7 (amended): cleaning requires `Price`, `Ram` and `SSD` under
exactly those names (they are read before names are normalized; in
particular a missing exact-case `Price` raises a `KeyError`), while the
rating and model columns may appear under any casing and spacing whose
normalization (lower-case, spaces to underscores) is `rating` resp.
`model`; every column name of an accepted table appears normalized in
the output. -/
theorem C7_column_name_handling (df : Table) :
    (CleanReady df → (∀ v ∈ colVals df "Price", priceFails v = false) →
      ∃ t, clean_data df = .ok t ∧
        ∀ m ∈ df.headers, normName m ∈ t.headers) ∧
    ("Price" ∉ df.headers → clean_data df = .error .keyError) := by
  constructor
  · intro h hok
    exact ⟨cleanT7 df, la_clean_data_run h hok,
      fun m hm => la_final_headers h hm⟩
  · intro hp
    simp only [clean_data, la_requireCol_err hp, la_err_bind]

/-- C7 (witness): a table with `RaTiNg` and `MODEL` columns is accepted
and its names are normalized, while a table offering only lower-case
`price` is rejected. -/
theorem C7_witness :
    (∃ t, clean_data ⟨["Price", "Ram", "SSD", "RaTiNg", "MODEL"],
        [[Value.vstr "₹2,000", Value.vstr "16 GB", Value.vstr "1 TB",
          Value.vnum 40, Value.vstr "Asus ROG"]]⟩ = .ok t ∧
      ∀ m ∈ (["Price", "Ram", "SSD", "RaTiNg", "MODEL"] : List String),
        normName m ∈ t.headers) ∧
    clean_data ⟨["price", "Ram", "SSD", "Rating", "Model"],
        [[Value.vstr "₹2,000", Value.vstr "16 GB", Value.vstr "1 TB",
          Value.vnum 40, Value.vstr "Asus ROG"]]⟩ = .error .keyError :=
  ⟨(C7_column_name_handling _).1
      ⟨by decide, by decide, by decide, by decide, by decide, by decide,
       by decide⟩ (by decide),
   (C7_column_name_handling _).2 (by decide)⟩

/-- C9: an absent rating is assigned exactly 0 by `fillna(0)`, so after
cleaning an absent rating and an explicit zero rating are
indistinguishable: the same raw row with a missing resp. zero `Rating`
cleans to the identical table, whose rating cell is 0. -/
theorem C9_missing_rating_zero :
    fillZero Value.vnull = Value.vnum 0 ∧
    fillZero (Value.vnum 0) = fillZero Value.vnull ∧
    clean_data ratingNullT = .ok ratingCleanT ∧
    clean_data ratingZeroT = .ok ratingCleanT ∧
    colVals ratingCleanT "rating" = [Value.vnum 0] := by decide

/-- C10: the loader returns the parsed table with its row count on
success, and on any reader failure (missing file, unreadable or
unparsable data) returns no table together with a diagnostic naming the
path and the error — no exception escapes, since `load_data` is total. -/
theorem C10_loader_error_handling
    (readCsv : String → Except String Table) (path : String) :
    (∀ e, readCsv path = .error e →
      load_data readCsv path
        = (none, "❌ Error al cargar " ++ path ++ ": " ++ e)) ∧
    (∀ t, readCsv path = .ok t →
      load_data readCsv path
        = (some t, "✅ Dataset cargado correctamente. Filas: "
            ++ toString t.rows.length)) := by
  constructor
  · intro e he
    simp [load_data, he]
  · intro t ht
    simp [load_data, ht]

/-- C10 (witness): the loader on a missing path and on the known path. -/
theorem C10_witness :
    load_data demoReadCsv "missing.csv"
      = (none, "❌ Error al cargar missing.csv: No such file or directory") ∧
    load_data demoReadCsv "laptop.csv"
      = (some ⟨["Price"], [[Value.vstr "₹1"]]⟩,
         "✅ Dataset cargado correctamente. Filas: 1") :=
  ⟨((C10_loader_error_handling demoReadCsv "missing.csv").1
      "No such file or directory" (by decide)).trans (by decide),
   ((C10_loader_error_handling demoReadCsv "laptop.csv").2
      ⟨["Price"], [[Value.vstr "₹1"]]⟩ (by decide)).trans (by decide)⟩

/-- C2 (counterexample): a table cleaning accepts whose `Ram` string
contains no digit run produces a cleaned row whose ram cell is the
missing value, not a number — contradicting the claim's "even when a Ram
or SSD string contains no digit run". -/
theorem C2_counterexample :
    ((clean_data ⟨["Price", "Ram", "SSD", "Rating", "Model"],
        [[Value.vstr "₹1,000", Value.vstr "GB", Value.vstr "512 GB",
          Value.vnum 45, Value.vstr "HP X"]]⟩).toOption).map
      (fun t => colVals t "ram") = some [Value.vnull] := by decide

/-- C2 (amended): in every table cleaning accepts (raw prices being
currency strings and raw ratings numeric-or-absent, per the data model),
every cleaned row has a numeric non-null price and rating (rating
defaulting to 0), while the ram and ssd cells are the digit-extraction of
the raw strings: numeric exactly when the raw string contains a digit,
and the missing value when it does not. -/
theorem C2_cleaned_row_invariant (df : Table) (h : CleanReady df)
    (hok : ∀ v ∈ colVals df "Price", priceFails v = false)
    (hPs : ∀ v ∈ colVals df "Price", ∃ s, v = Value.vstr s)
    (hRat : ∀ m ∈ df.headers, normName m = "rating" →
      ∀ v ∈ colVals df m, v = Value.vnull ∨ ∃ q, v = Value.vnum q) :
    ∃ t, clean_data df = .ok t ∧
      (∀ v ∈ colVals t "price", ∃ q, v = Value.vnum q) ∧
      (∀ m ∈ df.headers, normName m = "rating" →
        ∀ v ∈ colVals t "rating", ∃ q, v = Value.vnum q) ∧
      colVals t "ram" = (colVals df "Ram").map extractNum ∧
      colVals t "ssd" = (colVals df "SSD").map extractNum ∧
      (∀ s : String, (∃ c ∈ s.data, c.isDigit = true) →
        ∃ q, extractNum (Value.vstr s) = Value.vnum q) ∧
      (∀ s : String, (∀ c ∈ s.data, c.isDigit = false) →
        extractNum (Value.vstr s) = Value.vnull) := by
  refine ⟨cleanT7 df, la_clean_data_run h hok, ?_, ?_, ?_, ?_, ?_, ?_⟩
  · rw [la_colVals_eq (la_final_price h)]
    intro v hv
    obtain ⟨v0, hv0, rfl⟩ := List.mem_map.mp hv
    obtain ⟨s, rfl⟩ := hPs v0 hv0
    have hf := hok _ hv0
    simp only [priceFails, Option.isNone_eq_false_iff,
      Option.isSome_iff_exists] at hf
    obtain ⟨q, hq⟩ := hf
    exact ⟨q, by simp [cleanPriceT, hq]⟩
  · intro m hm he v hv
    rw [la_colVals_eq (la_final_rating h hm he)] at hv
    obtain ⟨v0, hv0, rfl⟩ := List.mem_map.mp hv
    rcases hRat m hm he v0 hv0 with rfl | ⟨q, rfl⟩
    · exact ⟨0, rfl⟩
    · exact ⟨q, rfl⟩
  · exact la_colVals_eq (la_final_ram h)
  · exact la_colVals_eq (la_final_ssd h)
  · intro s hs
    obtain ⟨ds, hds⟩ := la_firstDigitRun_some hs
    exact ⟨(digitsVal ds : ℚ), by simp [extractNum, hds]⟩
  · exact fun s hs => la_extractNum_none hs

/-- C2 (witness): the invariant at a concrete accepted table. -/
theorem C2_witness :
    ∃ t, clean_data c2DemoT = .ok t ∧
      (∀ v ∈ colVals t "price", ∃ q, v = Value.vnum q) ∧
      (∀ m ∈ c2DemoT.headers, normName m = "rating" →
        ∀ v ∈ colVals t "rating", ∃ q, v = Value.vnum q) ∧
      colVals t "ram" = (colVals c2DemoT "Ram").map extractNum ∧
      colVals t "ssd" = (colVals c2DemoT "SSD").map extractNum := by
  obtain ⟨t, h1, h2, h3, h4, h5, _, _⟩ :=
    C2_cleaned_row_invariant c2DemoT
      ⟨by decide, by decide, by decide, by decide, by decide, by decide,
       by decide⟩
      (by decide)
      (by
        intro v hv
        have he : colVals c2DemoT "Price" = [Value.vstr "₹54,999"] := by
          decide
        rw [he, List.mem_singleton] at hv
        exact ⟨"₹54,999", hv⟩)
      (by
        intro m hm he v hv
        have hl : c2DemoT.headers
            = ["Price", "Ram", "SSD", "Rating", "Model"] := by decide
        rw [hl] at hm
        simp only [List.mem_cons, List.not_mem_nil, or_false] at hm
        rcases hm with rfl | rfl | rfl | rfl | rfl
        · exact absurd he (by decide)
        · exact absurd he (by decide)
        · exact absurd he (by decide)
        · have hc : colVals c2DemoT "Rating" = [Value.vnull] := by decide
          rw [hc, List.mem_singleton] at hv
          exact Or.inl hv
        · exact absurd he (by decide))
  exact ⟨t, h1, h2, h3, h4, h5⟩

/-- C8 (counterexample): the model " " is a non-empty string, yet its
derived brand is the missing value — `str.split()` finds no token in a
whitespace-only string, so `.str[0]` yields NaN. -/
theorem C8_counterexample :
    deriveBrand (Value.vstr " ") = Value.vnull ∧ (" " : String) ≠ "" := by
  decide

/-- C8 (amended): for every accepted table whose model cells are strings
containing at least one non-whitespace character, the cleaned table's
brand column (the per-cell brand derivation of the model column) is
everywhere non-null — the first whitespace-delimited token is extractable
exactly when the model is not all whitespace. -/
theorem C8_brand_non_null (df : Table) (h : CleanReady df)
    (hok : ∀ v ∈ colVals df "Price", priceFails v = false)
    {m : String} (hm : m ∈ df.headers) (he : normName m = "model")
    (hmv : ∀ v ∈ colVals df m, ∃ s, v = Value.vstr s ∧
      ∃ c ∈ s.data, c.isWhitespace = false) :
    ∃ t, clean_data df = .ok t ∧
      colVals t "brand" = (colVals df m).map deriveBrand ∧
      ∀ v ∈ colVals t "brand", v ≠ Value.vnull := by
  refine ⟨cleanT7 df, la_clean_data_run h hok,
    la_colVals_eq (la_T7_brand h hm he), ?_⟩
  rw [la_colVals_eq (la_T7_brand h hm he)]
  intro v hv
  obtain ⟨v0, hv0, rfl⟩ := List.mem_map.mp hv
  obtain ⟨s, rfl, hc⟩ := hmv v0 hv0
  obtain ⟨b, hb⟩ := la_deriveBrand_some hc
  rw [hb]
  exact fun hcon => Value.noConfusion hcon

/-- C8 (witness): the brand column at a concrete table. -/
theorem C8_witness :
    ∃ t, clean_data c8DemoT = .ok t ∧
      colVals t "brand" = (colVals c8DemoT "Model").map deriveBrand ∧
      ∀ v ∈ colVals t "brand", v ≠ Value.vnull :=
  C8_brand_non_null c8DemoT
    ⟨by decide, by decide, by decide, by decide, by decide, by decide,
     by decide⟩
    (by decide) (by decide) (by decide)
    (by
      intro v hv
      have he : colVals c8DemoT "Model"
          = [Value.vstr "Apple MacBook Air"] := by decide
      rw [he, List.mem_singleton] at hv
      exact ⟨"Apple MacBook Air", hv, by decide⟩)
